import Mathlib

/-!
Verification of the asset-correlation dashboard (`app.py`).

The development shallowly embeds the program's core logic:

* `buildUrl`, `apiTickerOf`       — the URL the fetch loop builds (note the
  literal `https.api.polygon.io`, with no `://` scheme separator, exactly as
  in the source);
* `requestsGet`                   — a model of `requests.get` followed by
  `raise_for_status()` and `.json()`: the network is an oracle
  `String → Option ApiResponse`, and a URL that does not start with a
  supported `http://` / `https://` scheme raises (`MissingSchema`, a
  `RequestException`), modelled as `none`;
* `fetchGo` / `fetchAllData`      — the body of `fetch_all_data`: the loop
  over tickers, the `price_data[ticker] = …` dictionary insertion guarded by
  `resultsCount > 0`, the `time.sleep(13)` after each non-raising iteration,
  and the `return None` taken on a `RequestException`.  Alongside the result
  the embedding returns the trace of observable events (outbound requests
  and sleeps), so temporal claims can be stated;
* `cachedFetch`                   — the `@st.cache_data` memoisation: results
  (including `None`) are stored keyed by the argument pair;
* `dailyReturns`                  — `all_prices.pct_change().dropna()` over
  the price table aligned on the sorted union of dates (`pct_change` with no
  filling: a missing neighbouring price yields a missing return);
* `correlationMatrix`             — `daily_returns.tail(window).corr()`,
  with Pearson correlation over exact rationals and the float `NaN` of a
  degenerate (fewer than 2 rows / zero variance) entry modelled as `none`;
* `corrPairs`, `mostCorrelated`, `leastCorrelated` — the pair ranking:
  `unstack()`, descending sort by value, the `!= 1.0` filter, and
  `drop_duplicates()` (first occurrence of each value survives).

Floating-point prices and correlations are idealised as `ℚ` (and `ℝ` where
a square root is required); dates are epoch numbers `Nat`.
-/

/-- A close-price series: (date, close) pairs, as produced from the API's
`results` field (`t` epoch stamp, `c` close). -/
abbrev Series := List (Nat × ℚ)

/-- The dictionary `price_data` built by `fetch_all_data`: insertion-ordered
ticker → series. -/
abbrev PriceTable := List (String × Series)

/-- The JSON body a successful request yields: `resultsCount` and `results`. -/
structure ApiResponse where
  resultsCount : Nat
  results : Series
deriving DecidableEq

/-- Observable events of the fetch loop: an outbound HTTP request for a
ticker, and a blocking sleep of the given number of seconds. -/
inductive Event where
  | request (ticker : String)
  | sleep (secs : Nat)
deriving DecidableEq

/-- The ticker rewrite of line 40: `"X:BTCUSD" if ticker == "BTC-USD" else ticker`. -/
def apiTickerOf (t : String) : String :=
  if t = "BTC-USD" then "X:BTCUSD" else t

/-- The f-string of line 41, verbatim: note `https.api.polygon.io` — there is
no `://` scheme separator in the built URL. -/
def buildUrl (t key : String) : String :=
  "https.api.polygon.io/v2/aggs/ticker/" ++
    (apiTickerOf t ++
      ("/range/1/day/2020-01-01/2025-09-19?adjusted=true&sort=asc&limit=50000&apiKey=" ++ key))

/-- Boolean check that `p` is an initial segment of `l` (character lists). -/
def charsBegin : List Char → List Char → Bool
  | [], _ => true
  | _ :: _, [] => false
  | a :: as, b :: bs => a == b && charsBegin as bs

/-- Models the URL schemes the `requests` library can dispatch: a URL not
starting with `http://` or `https://` has no usable scheme and
`requests.get` raises `MissingSchema` / `InvalidSchema` (both
`RequestException`s) without touching the network. -/
def urlSupported (url : String) : Bool :=
  charsBegin "http://".data url.data || charsBegin "https://".data url.data

/-- Models `requests.get(url)` + `raise_for_status()` + `.json()`.  The
network/remote API is the oracle `net`; `none` is a raised
`RequestException`.  An unsupported-scheme URL raises before any network
activity. -/
def requestsGet (net : String → Option ApiResponse) (url : String) : Option ApiResponse :=
  if urlSupported url then net url else none

/-- Python `dict` assignment `price_data[ticker] = v`: replaces in place if
the key exists, else appends. -/
def dictInsert (k : String) (v : Series) : PriceTable → PriceTable
  | [] => [(k, v)]
  | (k2, v2) :: rest => if k2 = k then (k, v) :: rest else (k2, v2) :: dictInsert k v rest

/-- The loop body of `fetch_all_data` (lines 37–58), with the accumulated
`price_data` dictionary explicit.  `fetch t` is the outcome of the whole
guarded network interaction for ticker `t` (`none` = a caught
`RequestException`).  Returns the function's result together with the trace
of events: on success or on an empty result (`resultsCount = 0`, only a
warning) the iteration ends with `time.sleep 13`; on an exception the
function returns `None` at once, with no sleep and no further iteration. -/
def fetchGo (fetch : String → Option ApiResponse) :
    List String → PriceTable → Option PriceTable × List Event
  | [], acc => (some acc, [])
  | t :: ts, acc =>
    match fetch t with
    | none => (none, [Event.request t])
    | some resp =>
      let acc2 := if resp.resultsCount > 0 then dictInsert t resp.results acc else acc
      let res := fetchGo fetch ts acc2
      (res.1, Event.request t :: Event.sleep 13 :: res.2)

/-- `fetch_all_data(tickers, …)` over an abstract per-ticker fetch outcome,
starting from the empty `price_data = {}`. -/
def fetchAllData (fetch : String → Option ApiResponse) (tickers : List String) :
    Option PriceTable × List Event :=
  fetchGo fetch tickers []

/-- The concrete `fetch_all_data(tickers, api_key)`: each ticker's fetch is
`requests.get` on the URL of line 41 built from the ticker and the key. -/
def realFetchAllData (net : String → Option ApiResponse) (tickers : List String)
    (key : String) : Option PriceTable × List Event :=
  fetchAllData (fun t => requestsGet net (buildUrl t key)) tickers

/-- A `@st.cache_data` cache: stored results (the function's return value,
`None` included) keyed by the argument tuple `(tickers, api_key)`. -/
abbrev Cache := List ((List String × String) × Option PriceTable)

/-- Cache lookup by key. -/
def cacheLookup (c : Cache) (k : List String × String) : Option (Option PriceTable) :=
  (c.find? (fun e => e.1 == k)).map Prod.snd

/-- `fetch_all_data` as called through `@st.cache_data`: a hit returns the
stored value with no events at all; a miss runs the function, stores its
return value (even `None`) under the key, and returns it.  Result,
event trace, and updated cache. -/
def cachedFetch (fetch : String → Option ApiResponse) (c : Cache)
    (tickers : List String) (key : String) :
    Option PriceTable × List Event × Cache :=
  match cacheLookup c (tickers, key) with
  | some r => (r, [], c)
  | none =>
    let res := fetchAllData fetch tickers
    (res.1, res.2, ((tickers, key), res.1) :: c)

/-- Spacing check on a trace: every request is immediately followed by a
sleep of 13 seconds, except possibly a final request that ends the trace
(the aborting, failed one).  In particular no two requests are ever
adjacent without an intervening 13-second sleep. -/
def spaced : List Event → Bool
  | [] => true
  | [Event.request _] => true
  | Event.request _ :: Event.sleep n :: rest => n == 13 && spaced rest
  | _ => false

-- ### Return & Correlation Engine (lines 74–75)

/-- All dates occurring in any fetched series. -/
def allDates (pt : PriceTable) : List Nat :=
  pt.flatMap (fun kv => kv.2.map Prod.fst)

/-- Insertion into an ascending list. -/
def insertAsc (x : Nat) : List Nat → List Nat
  | [] => [x]
  | y :: ys => if x ≤ y then x :: y :: ys else y :: insertAsc x ys

/-- Ascending insertion sort. -/
def sortAsc (l : List Nat) : List Nat := l.foldr insertAsc []

/-- The index of `pd.DataFrame(price_data)`: the sorted union of the dates of
all the per-ticker series (a date missing from some series yields a missing
value in that ticker's column). -/
def dateAxis (pt : PriceTable) : List Nat := sortAsc (allDates pt).dedup

/-- The close of one series at one date, if present. -/
def seriesAt (s : Series) (d : Nat) : Option ℚ :=
  (s.find? (fun p => p.1 == d)).map Prod.snd

/-- One row of the aligned price frame: each ticker's (optional) close at `d`,
in column (dictionary-insertion) order. -/
def rowAt (pt : PriceTable) (d : Nat) : List (Option ℚ) :=
  pt.map (fun kv => seriesAt kv.2 d)

/-- One cell of `pct_change` (no filling): `cur / prev - 1`, missing if
either neighbour is missing. -/
def frChange (prev cur : Option ℚ) : Option ℚ :=
  match prev, cur with
  | some a, some b => some (b / a - 1)
  | _, _ => none

/-- `DataFrame.pct_change()` on the aligned rows: the first row is all
missing, and row `i` is computed cellwise from rows `i-1` and `i`. -/
def pctRows (rows : List (List (Option ℚ))) : List (List (Option ℚ)) :=
  match rows with
  | [] => []
  | r0 :: _ => (r0.map fun _ => none) :: List.zipWith (List.zipWith frChange) rows rows.tail

/-- A row with no missing value, as a list of plain rationals. -/
def seqRow : List (Option ℚ) → Option (List ℚ)
  | [] => some []
  | none :: _ => none
  | some x :: rest => (seqRow rest).map (fun v => x :: v)

/-- `DataFrame.dropna()`: keep exactly the (date, row) pairs whose row has no
missing value. -/
def dropna (dates : List Nat) (rows : List (List (Option ℚ))) : List (Nat × List ℚ) :=
  (dates.zip rows).filterMap (fun dr => (seqRow dr.2).map (fun v => (dr.1, v)))

/-- Line 74: `daily_returns = all_prices.pct_change().dropna()`, over the
price table aligned on the union date axis. -/
def dailyReturns (pt : PriceTable) : List (Nat × List ℚ) :=
  dropna (dateAxis pt) (pctRows ((dateAxis pt).map (rowAt pt)))

/-- Every ticker of the table has a defined price at date `d`. -/
def rowDefined (pt : PriceTable) (d : Nat) : Bool :=
  pt.all (fun kv => (seriesAt kv.2 d).isSome)

/-- The returns row the spec prescribes for dates `dp < d`: per ticker,
`price[d] / price[dp] - 1`. -/
def specRow (pt : PriceTable) (dp d : Nat) : List ℚ :=
  pt.map (fun kv => (seriesAt kv.2 d).getD 0 / (seriesAt kv.2 dp).getD 0 - 1)

/-- Modelled from the spec (§3 ReturnsTable, §4.5): the returns table holds a
row for a date exactly when every ticker has a defined price both at that
date and at the preceding date of the aligned axis, and the row holds each
ticker's fractional change `price[t]/price[t-1] - 1`. -/
def returnsSpec (pt : PriceTable) : List (Nat × List ℚ) :=
  ((dateAxis pt).zip (dateAxis pt).tail).filterMap
    (fun pr =>
      if rowDefined pt pr.1 && rowDefined pt pr.2 then some (pr.2, specRow pt pr.1 pr.2)
      else none)

/-- `DataFrame.tail(w)`: the last `w` rows. -/
def tailRows (l : List (List ℚ)) (w : Nat) : List (List ℚ) := l.drop (l.length - w)

/-- The value rows of `daily_returns.tail(rolling_window)` (dates dropped;
each row has one rational per ticker, in column order). -/
def returnRows (pt : PriceTable) (w : Nat) : List (List ℚ) :=
  tailRows ((dailyReturns pt).map Prod.snd) w

/-- Column `j` of a list of rows. -/
def colAt (rows : List (List ℚ)) (j : Nat) : List ℚ :=
  rows.map (fun r => r.getD j 0)

/-- Arithmetic mean (0 on an empty list, as the degenerate float case is
absorbed by the `none` branch of `pearson`). -/
def meanQ (xs : List ℚ) : ℚ := xs.sum / xs.length

/-- Deviations from the mean. -/
def devs (xs : List ℚ) : List ℚ := xs.map (fun x => x - meanQ xs)

/-- Sum of products of paired deviations (the covariance up to the common
`1/(n-1)` factor, which cancels in the correlation). -/
def covS (xs ys : List ℚ) : ℚ :=
  (List.zipWith (fun a b => a * b) (devs xs) (devs ys)).sum

/-- Variance sum: `covS xs xs`. -/
def varS (xs : List ℚ) : ℚ := covS xs xs

/-- Pearson correlation of two equally long columns, as pandas `corr`
computes it: `cov / sqrt(var_x * var_y)`.  The floating-point `NaN` produced
when fewer than 2 observations exist or a column has zero variance (a `0/0`)
is modelled as `none`.  The computation is total: no exception is ever
raised, matching the renderability requirement. -/
noncomputable def pearson (xs ys : List ℚ) : Option ℝ :=
  if xs.length < 2 ∨ ys.length < 2 ∨ varS xs = 0 ∨ varS ys = 0 then none
  else some ((covS xs ys : ℝ) / Real.sqrt ((varS xs : ℝ) * (varS ys : ℝ)))

/-- Line 75: `correlation_matrix = daily_returns.tail(rolling_window).corr()`
— the square, fully shaped matrix of pairwise Pearson correlations of the
ticker columns over the trailing window. -/
noncomputable def correlationMatrix (pt : PriceTable) (w : Nat) : List (List (Option ℝ)) :=
  (List.range pt.length).map fun i =>
    (List.range pt.length).map fun j =>
      pearson (colAt (returnRows pt w) i) (colAt (returnRows pt w) j)

/-- Entry `(i, j)` of a matrix of optional values (`none` when out of
range, mirroring a fully-`NaN`-padded read). -/
def entryAt (m : List (List (Option ℝ))) (i j : Nat) : Option ℝ :=
  (m.getD i []).getD j none

/-- The price table of the spec's zero-variance scenario (§8): ticker A with
prices 100, 110, 121 and ticker B with prices 50, 45, 40.5 on three
consecutive dates — both return columns are constant. -/
def scenarioTable : PriceTable :=
  [("A", [(0, 100), (1, 110), (2, 121)]), ("B", [(0, 50), (1, 45), (2, 81/2)])]

-- ### Pair Ranker (lines 89–98)

/-- A flattened matrix entry: (first label, second label, correlation). -/
abbrev RankedPair := String × String × ℚ

/-- The value component of a flattened entry. -/
def pairVal (e : RankedPair) : ℚ := e.2.2

/-- Positional read of a matrix of rationals, given as its rows. -/
def valAt (vals : List (List ℚ)) (r c : Nat) : ℚ := (vals.getD r []).getD c 0

/-- `correlation_matrix.unstack()`: one entry per ordered position pair, the
outer index running over columns and the inner over rows, labelled with the
two tickers and carrying the matrix value.  The matrix is given by its
ticker labels and its rows of values; the ranker is modelled on matrices of
plain rational correlation values (a matrix holding NaN is outside this
model). -/
def unstackPairs (labels : List String) (vals : List (List ℚ)) : List RankedPair :=
  (List.range labels.length).flatMap fun c =>
    (List.range labels.length).map fun r =>
      (labels.getD c "", labels.getD r "", valAt vals r c)

/-- Insertion into a list sorted by descending value. -/
def insertDesc (e : RankedPair) : List RankedPair → List RankedPair
  | [] => [e]
  | f :: fs => if pairVal f ≤ pairVal e then e :: f :: fs else f :: insertDesc e fs

/-- `sort_values(ascending=False)`: a descending sort by value (pandas leaves
the relative order of tied values unspecified; this deterministic sort is one
such order, and the properties proved below do not depend on the choice). -/
def sortDescPairs (l : List RankedPair) : List RankedPair := l.foldr insertDesc []

/-- `drop_duplicates()`: keep each entry whose value has not been seen yet —
the first occurrence of every value survives, later entries with an equal
value are dropped. -/
def dropDupVals : List RankedPair → List ℚ → List RankedPair
  | [], _ => []
  | e :: es, seen =>
    if pairVal e ∈ seen then dropDupVals es seen
    else e :: dropDupVals es (pairVal e :: seen)

/-- Lines 89–90:
`corr_pairs = correlation_matrix.unstack().sort_values(ascending=False)` then
`corr_pairs = corr_pairs[corr_pairs != 1.0].drop_duplicates()`. -/
def corrPairs (labels : List String) (vals : List (List ℚ)) : List RankedPair :=
  dropDupVals ((sortDescPairs (unstackPairs labels vals)).filter (fun e => pairVal e != 1)) []

/-- Line 95: `corr_pairs.head(5)` — the "Most Correlated" table. -/
def mostCorrelated (labels : List String) (vals : List (List ℚ)) : List RankedPair :=
  (corrPairs labels vals).take 5

/-- Line 98: `corr_pairs.tail(5)` — the "Least Correlated" table: the last 5
entries of the same descending sequence. -/
def leastCorrelated (labels : List String) (vals : List (List ℚ)) : List RankedPair :=
  (corrPairs labels vals).drop ((corrPairs labels vals).length - 5)

/-- The off-diagonal matrix values (all positions r ≠ c), with multiplicity. -/
def offDiagVals (labels : List String) (vals : List (List ℚ)) : List ℚ :=
  (List.range labels.length).flatMap fun c =>
    ((List.range labels.length).filter (fun r => r != c)).map fun r => valAt vals r c

/-- An entry displays the unordered ticker pair {a, b} (in either order). -/
def pairMatch (a b : String) (e : RankedPair) : Bool :=
  (e.1 == a && e.2.1 == b) || (e.1 == b && e.2.1 == a)

-- ### Concrete instances used by the witnesses

/-- A concrete fetch oracle failing exactly on ticker B. -/
def c2fetch : String → Option ApiResponse :=
  fun u => if u == "B" then none else some ⟨1, [(0, 1)]⟩

/-- A concrete fetch oracle: ticker E yields an empty result
(`resultsCount = 0`), every other ticker a non-empty series. -/
def c8fetch : String → Option ApiResponse :=
  fun u => if u == "E" then some ⟨0, []⟩ else some ⟨2, [(0, 1), (1, 2)]⟩

/-- Three distinct ticker labels. -/
def c3labels : List String := ["A", "B", "C"]

/-- A symmetric unit-diagonal 3 × 3 matrix whose three off-diagonal values
are pairwise distinct and different from 1. -/
def c3vals : List (List ℚ) := [[1, 2, 3], [2, 1, 4], [3, 4, 1]]

/-- Ten distinct ticker labels. -/
def c7labels : List String :=
  ["T0", "T1", "T2", "T3", "T4", "T5", "T6", "T7", "T8", "T9"]

/-- A symmetric unit-diagonal 10 × 10 matrix whose 45 off-diagonal values
(one per unordered pair) are pairwise distinct. -/
def c7vals : List (List ℚ) :=
  (List.range 10).map fun i => (List.range 10).map fun j =>
    if i = j then 1 else ((2 + 10 * min i j + max i j : ℕ) : ℚ)

-- ### Basic lemmas on the fetch loop

lemma charsBegin_take (p l : List Char) :
    charsBegin p l = charsBegin p (l.take p.length) := by
  induction p generalizing l with
  | nil => simp [charsBegin]
  | cons a as ih =>
    cases l with
    | nil => simp [charsBegin]
    | cons b bs => simp [charsBegin, ih bs]

lemma urlSupported_buildUrl (t key : String) :
    urlSupported (buildUrl t key) = false := by
  have h : (buildUrl t key).data =
      "https.api.polygon.io/v2/aggs/ticker/".data ++
        (apiTickerOf t ++
          ("/range/1/day/2020-01-01/2025-09-19?adjusted=true&sort=asc&limit=50000&apiKey=" ++ key)).data := by
    rw [buildUrl, String.data_append]
  rw [urlSupported, h,
    charsBegin_take "http://".data, charsBegin_take "https://".data,
    List.take_append_of_le_length (by decide), List.take_append_of_le_length (by decide)]
  decide

lemma buildUrl_starts (t key : String) :
    charsBegin "https.api.polygon.io".data (buildUrl t key).data = true := by
  have h : (buildUrl t key).data =
      "https.api.polygon.io/v2/aggs/ticker/".data ++
        (apiTickerOf t ++
          ("/range/1/day/2020-01-01/2025-09-19?adjusted=true&sort=asc&limit=50000&apiKey=" ++ key)).data := by
    rw [buildUrl, String.data_append]
  rw [h, charsBegin_take, List.take_append_of_le_length (by decide)]
  decide

lemma fetchGo_none_of_mem (fetch : String → Option ApiResponse) :
    ∀ (tickers : List String) (acc : PriceTable),
      (∃ t ∈ tickers, fetch t = none) → (fetchGo fetch tickers acc).1 = none := by
  intro tickers
  induction tickers with
  | nil => intro acc h; rcases h with ⟨t, ht, _⟩; cases ht
  | cons t ts ih =>
    intro acc h
    cases hf : fetch t with
    | none => simp [fetchGo, hf]
    | some resp =>
      rcases h with ⟨u, hu, hun⟩
      rcases List.mem_cons.mp hu with rfl | hmem
      · rw [hf] at hun; cases hun
      · simp only [fetchGo, hf]
        exact ih _ ⟨u, hmem, hun⟩

lemma fetchGo_cons_some (fetch : String → Option ApiResponse) (t : String)
    (ts : List String) (acc : PriceTable) (resp : ApiResponse)
    (h : fetch t = some resp) :
    fetchGo fetch (t :: ts) acc =
      ((fetchGo fetch ts
          (if resp.resultsCount > 0 then dictInsert t resp.results acc else acc)).1,
        Event.request t :: Event.sleep 13 ::
          (fetchGo fetch ts
            (if resp.resultsCount > 0 then dictInsert t resp.results acc else acc)).2) := by
  simp [fetchGo, h]

lemma fetchGo_first_error (fetch : String → Option ApiResponse) :
    ∀ (pre : List String) (t : String) (post : List String) (acc : PriceTable),
      fetch t = none → (∀ u ∈ pre, fetch u ≠ none) →
      fetchGo fetch (pre ++ t :: post) acc =
        (none, pre.flatMap (fun u => [Event.request u, Event.sleep 13]) ++ [Event.request t]) := by
  intro pre
  induction pre with
  | nil => intro t post acc ht _; simp [fetchGo, ht]
  | cons u us ih =>
    intro t post acc ht hok
    have hu : fetch u ≠ none := hok u (List.mem_cons_self u us)
    cases hf : fetch u with
    | none => exact absurd hf hu
    | some resp =>
      have hok2 : ∀ w ∈ us, fetch w ≠ none := fun w hw => hok w (List.mem_cons_of_mem _ hw)
      rw [List.cons_append, fetchGo_cons_some fetch u _ acc resp hf,
        ih t post _ ht hok2]
      simp

lemma fetchGo_all_ok (fetch : String → Option ApiResponse) :
    ∀ (tickers : List String) (acc : PriceTable),
      (∀ t ∈ tickers, fetch t ≠ none) →
      (fetchGo fetch tickers acc).2 =
        tickers.flatMap (fun u => [Event.request u, Event.sleep 13]) := by
  intro tickers
  induction tickers with
  | nil => intro acc _; simp [fetchGo]
  | cons t ts ih =>
    intro acc hok
    cases hf : fetch t with
    | none => exact absurd hf (hok t (List.mem_cons_self t ts))
    | some resp =>
      have hok2 : ∀ w ∈ ts, fetch w ≠ none := fun w hw => hok w (List.mem_cons_of_mem _ hw)
      rw [fetchGo_cons_some fetch t ts acc resp hf]
      simp [ih _ hok2]

lemma fetchGo_spaced (fetch : String → Option ApiResponse) :
    ∀ (tickers : List String) (acc : PriceTable),
      spaced (fetchGo fetch tickers acc).2 = true := by
  intro tickers
  induction tickers with
  | nil => intro acc; simp [fetchGo, spaced]
  | cons t ts ih =>
    intro acc
    cases hf : fetch t with
    | none => simp [fetchGo, hf, spaced]
    | some resp =>
      simp only [fetchGo, hf]
      cases hgo : (fetchGo fetch ts
          (if resp.resultsCount > 0 then dictInsert t resp.results acc else acc)).2 with
      | nil => simp [spaced]
      | cons e rest =>
        have := ih (if resp.resultsCount > 0 then dictInsert t resp.results acc else acc)
        rw [hgo] at this
        simpa [spaced] using this

-- ### Lemmas on the returns pipeline

lemma seqRow_frChange (pt : PriceTable) (dp d : Nat) :
    seqRow (List.zipWith frChange (rowAt pt dp) (rowAt pt d)) =
      if rowDefined pt dp && rowDefined pt d then some (specRow pt dp d) else none := by
  induction pt with
  | nil => simp [rowAt, seqRow, rowDefined, specRow]
  | cons kv rest ih =>
    cases ha : seriesAt kv.2 dp with
    | none => simp [rowAt, rowDefined, ha, frChange, seqRow]
    | some x =>
      cases hb : seriesAt kv.2 d with
      | none => simp [rowAt, rowDefined, ha, hb, frChange, seqRow]
      | some y =>
        simp only [rowAt, List.map_cons, List.zipWith_cons_cons, ha, hb, frChange, seqRow,
          rowDefined, List.all_cons, Option.isSome_some, Bool.true_and, specRow]
        rw [show (List.zipWith frChange (List.map (fun kv => seriesAt kv.2 dp) rest)
              (List.map (fun kv => seriesAt kv.2 d) rest)) =
            List.zipWith frChange (rowAt rest dp) (rowAt rest d) from rfl, ih]
        by_cases h : (rowDefined rest dp && rowDefined rest d) = true
        · simp [h, rowDefined, specRow, rowAt]
        · simp [h, rowDefined, specRow, rowAt]

lemma dropna_pct_aux (pt : PriceTable) :
    ∀ (rest : List Nat) (dp : Nat),
      (rest.zip (List.zipWith (List.zipWith frChange)
          (rowAt pt dp :: rest.map (rowAt pt)) (rest.map (rowAt pt)))).filterMap
            (fun dr => (seqRow dr.2).map (fun v => (dr.1, v))) =
        ((dp :: rest).zip rest).filterMap
          (fun pr =>
            if rowDefined pt pr.1 && rowDefined pt pr.2 then some (pr.2, specRow pt pr.1 pr.2)
            else none) := by
  intro rest
  induction rest with
  | nil => intro dp; simp
  | cons d rest ih =>
    intro dp
    simp only [List.map_cons, List.zipWith_cons_cons, List.zip_cons_cons, List.filterMap_cons]
    rw [seqRow_frChange]
    by_cases h : (rowDefined pt dp && rowDefined pt d) = true
    · rw [if_pos h, if_pos h]
      rw [ih d]
      simp
    · rw [if_neg h, if_neg h]
      rw [ih d]
      simp

lemma seqRow_noneRow (pt : PriceTable) (h : pt ≠ []) (d : Nat) :
    seqRow ((rowAt pt d).map (fun _ => (none : Option ℚ))) = none := by
  cases pt with
  | nil => exact absurd rfl h
  | cons kv rest => simp [rowAt, seqRow]

/-- C4 — for every price table, `pct_change().dropna()` agrees with the
spec's description of the ReturnsTable: a row per date exactly when all
tickers have a price at that date and the preceding one, holding the
fractional changes `price[t]/price[t-1] - 1`. -/
theorem c4_daily_returns_spec (pt : PriceTable) :
    dailyReturns pt = returnsSpec pt := by
  by_cases hpt : pt = []
  · subst hpt
    simp [dailyReturns, returnsSpec, dateAxis, allDates, sortAsc, dropna, pctRows]
  · unfold dailyReturns returnsSpec
    cases hax : dateAxis pt with
    | nil => simp [dropna, pctRows]
    | cons d0 rest =>
      simp only [List.map_cons, pctRows, List.tail_cons, dropna, List.zip_cons_cons,
        List.filterMap_cons, seqRow_noneRow pt hpt d0, Option.map_none]
      exact dropna_pct_aux pt rest d0

-- ### Lemmas on the correlation matrix

lemma colAt_length (rows : List (List ℚ)) (j : Nat) : (colAt rows j).length = rows.length := by
  simp [colAt]

lemma covS_comm (xs ys : List ℚ) : covS xs ys = covS ys xs := by
  unfold covS
  rw [List.zipWith_comm_of_comm (fun a b => a * b) (fun a b => mul_comm a b)]

lemma pearson_comm (xs ys : List ℚ) : pearson xs ys = pearson ys xs := by
  unfold pearson
  rw [covS_comm]
  have hc : (xs.length < 2 ∨ ys.length < 2 ∨ varS xs = 0 ∨ varS ys = 0) ↔
      (ys.length < 2 ∨ xs.length < 2 ∨ varS ys = 0 ∨ varS xs = 0) := by tauto
  have h2 : ((varS xs : ℝ) * (varS ys : ℝ)) = ((varS ys : ℝ) * (varS xs : ℝ)) := mul_comm _ _
  rw [h2]
  exact if_congr hc rfl rfl

lemma getD_map_range {α : Type} (n : Nat) (f : Nat → α) (d : α) (i : Nat) :
    ((List.range n).map f).getD i d = if i < n then f i else d := by
  by_cases h : i < n
  · rw [List.getD_eq_getElem?_getD, List.getElem?_map, List.getElem?_range h]
    simp [h]
  · rw [List.getD_eq_getElem?_getD, List.getElem?_map,
      List.getElem?_eq_none (by simpa using Nat.le_of_not_lt h)]
    simp [h]

lemma entryAt_corr (pt : PriceTable) (w i j : Nat) :
    entryAt (correlationMatrix pt w) i j =
      if i < pt.length ∧ j < pt.length then
        pearson (colAt (returnRows pt w) i) (colAt (returnRows pt w) j)
      else none := by
  unfold entryAt correlationMatrix
  rw [getD_map_range]
  by_cases hi : i < pt.length
  · rw [if_pos hi, getD_map_range]
    by_cases hj : j < pt.length
    · rw [if_pos hj, if_pos (And.intro hi hj)]
    · rw [if_neg hj, if_neg (by tauto)]
  · rw [if_neg hi, if_neg (by tauto)]
    simp

/-- C5 — the correlation matrix the Engine produces is symmetric: the entry
at (i, j) equals the entry at (j, i), for every price table and window. -/
theorem c5_correlation_symmetric (pt : PriceTable) (w i j : Nat) :
    entryAt (correlationMatrix pt w) i j = entryAt (correlationMatrix pt w) j i := by
  rw [entryAt_corr, entryAt_corr, pearson_comm]
  exact if_congr And.comm rfl rfl

/-- C6 — when fewer than 2 return rows remain in the trailing window, or a
ticker's returns have zero variance within it, the Engine still yields a
fully shaped square matrix (one row and one column per ticker) and the
affected entry is not-a-number (`none`); the computation is total, so no
exception is raised. -/
theorem c6_degenerate_entries_nan (pt : PriceTable) (w i j : Nat)
    (hi : i < pt.length) (hj : j < pt.length)
    (h : (returnRows pt w).length < 2 ∨ varS (colAt (returnRows pt w) i) = 0 ∨
      varS (colAt (returnRows pt w) j) = 0) :
    entryAt (correlationMatrix pt w) i j = none ∧
    (correlationMatrix pt w).length = pt.length ∧
    ∀ row ∈ correlationMatrix pt w, row.length = pt.length := by
  refine ⟨?_, by simp [correlationMatrix], ?_⟩
  · rw [entryAt_corr, if_pos ⟨hi, hj⟩, pearson, if_pos]
    rcases h with h | h | h
    · exact Or.inl (by rw [colAt_length]; exact h)
    · exact Or.inr (Or.inr (Or.inl h))
    · exact Or.inr (Or.inr (Or.inr h))
  · intro row hrow
    simp only [correlationMatrix, List.mem_map] at hrow
    rcases hrow with ⟨i0, _, rfl⟩
    simp

/-- Witness for C6: the spec's scenario — two tickers with constant returns
(prices 100, 110, 121 and 50, 45, 40.5) give zero variance, so the (0, 1)
entry is not-a-number and the matrix is still fully shaped 2 × 2. -/
theorem c6_witness :
    (0 < scenarioTable.length ∧ 1 < scenarioTable.length ∧
      varS (colAt (returnRows scenarioTable 90) 0) = 0) ∧
    (entryAt (correlationMatrix scenarioTable 90) 0 1 = none ∧
      (correlationMatrix scenarioTable 90).length = scenarioTable.length ∧
      ∀ row ∈ correlationMatrix scenarioTable 90, row.length = scenarioTable.length) := by
  have hvar : varS (colAt (returnRows scenarioTable 90) 0) = 0 := by
    norm_num [scenarioTable, returnRows, dailyReturns, dateAxis, allDates, sortAsc,
      insertAsc, rowAt, seriesAt, pctRows, dropna, seqRow, frChange, tailRows, List.find?,
      List.dedup, List.zipWith, List.filterMap, varS, covS, devs, meanQ, colAt]
  exact ⟨⟨by decide, by decide, hvar⟩,
    c6_degenerate_entries_nan scenarioTable 90 0 1 (by decide) (by decide)
      (Or.inr (Or.inl hvar))⟩

-- ### Cache lemmas

lemma cacheLookup_cons_self (c : Cache) (k : List String × String) (v : Option PriceTable) :
    cacheLookup ((k, v) :: c) k = some v := by
  simp [cacheLookup, List.find?]

-- ### Claims on the Batch Collector, Rate Limiter and Result Cache

/-- C1 — for every network behaviour, non-empty ticker list and non-empty
key, `fetch_all_data` returns `None`: the URL built for the first ticker
begins with the literal `https.api.polygon.io` and has no `://` scheme
separator, so the request raises a `RequestException` and the error branch
returns before any series is collected (the trace is the single failed
request). -/
theorem c1_invalid_url_fetch_returns_none (net : String → Option ApiResponse)
    (tickers : List String) (key : String) (h1 : tickers ≠ []) (_h2 : key ≠ "") :
    (realFetchAllData net tickers key).1 = none ∧
    (realFetchAllData net tickers key).2 = [Event.request (tickers.headD "")] ∧
    charsBegin "https.api.polygon.io".data (buildUrl (tickers.headD "") key).data = true := by
  cases tickers with
  | nil => exact absurd rfl h1
  | cons t ts =>
    have hu : requestsGet net (buildUrl t key) = none := by
      rw [requestsGet, urlSupported_buildUrl t key]
      simp
    refine ⟨?_, ?_, buildUrl_starts t key⟩ <;>
      simp [realFetchAllData, fetchAllData, fetchGo, hu]

/-- Witness for C1: a concrete network oracle, ticker list and key. -/
theorem c1_witness :
    ((["SPY"] : List String) ≠ [] ∧ ("key0" : String) ≠ "") ∧
    ((realFetchAllData (fun _ => none) ["SPY"] "key0").1 = none ∧
      (realFetchAllData (fun _ => none) ["SPY"] "key0").2 = [Event.request "SPY"] ∧
      charsBegin "https.api.polygon.io".data (buildUrl "SPY" "key0").data = true) :=
  ⟨⟨by decide, by decide⟩,
    c1_invalid_url_fetch_returns_none (fun _ => none) ["SPY"] "key0" (by decide) (by decide)⟩

/-- C2 — if some ticker's fetch raises a transport error and every ticker
before it succeeds, the collector returns `None` immediately: the trace
stops at the failing request (no later ticker is fetched) and no partial
table is returned. -/
theorem c2_first_error_aborts (fetch : String → Option ApiResponse)
    (pre : List String) (t : String) (post : List String)
    (ht : fetch t = none) (hpre : ∀ u ∈ pre, fetch u ≠ none) :
    (fetchAllData fetch (pre ++ t :: post)).1 = none ∧
    (fetchAllData fetch (pre ++ t :: post)).2 =
      pre.flatMap (fun u => [Event.request u, Event.sleep 13]) ++ [Event.request t] := by
  unfold fetchAllData
  rw [fetchGo_first_error fetch pre t post [] ht hpre]
  exact ⟨rfl, rfl⟩

/-- Witness for C2: with tickers A, B, C and a failure on B, the result is
`None` and the trace is request A, sleep 13, request B — C is never
fetched. -/
theorem c2_witness :
    (c2fetch "B" = none ∧ ∀ u ∈ (["A"] : List String), c2fetch u ≠ none) ∧
    ((fetchAllData c2fetch (["A"] ++ "B" :: ["C"])).1 = none ∧
      (fetchAllData c2fetch (["A"] ++ "B" :: ["C"])).2 =
        ["A"].flatMap (fun u => [Event.request u, Event.sleep 13]) ++ [Event.request "B"]) :=
  ⟨⟨by decide, by decide⟩, c2_first_error_aborts c2fetch ["A"] "B" ["C"] (by decide) (by decide)⟩

/-- C8 — in every execution of the collector the trace is well spaced: every
request (after a successful fetch and equally after an empty-result fetch)
is immediately followed by a fixed 13-second sleep, so no two outbound
requests ever occur without that delay between them; and when no fetch
raises, every request including the last ticker's is followed by the
13-second sleep. -/
theorem c8_delay_after_each_fetch (fetch : String → Option ApiResponse)
    (tickers : List String) :
    spaced (fetchAllData fetch tickers).2 = true ∧
    ((∀ t ∈ tickers, fetch t ≠ none) →
      (fetchAllData fetch tickers).2 =
        tickers.flatMap (fun u => [Event.request u, Event.sleep 13])) :=
  ⟨fetchGo_spaced fetch tickers [], fun h => fetchGo_all_ok fetch tickers [] h⟩

/-- Witness for C8: a successful fetch followed by an empty-result fetch —
each is followed by the 13-second sleep, including the last. -/
theorem c8_witness :
    (∀ t ∈ (["A", "E"] : List String), c8fetch t ≠ none) ∧
    spaced (fetchAllData c8fetch ["A", "E"]).2 = true ∧
    (fetchAllData c8fetch ["A", "E"]).2 =
      ["A", "E"].flatMap (fun u => [Event.request u, Event.sleep 13]) :=
  ⟨by decide, (c8_delay_after_each_fetch c8fetch ["A", "E"]).1,
    (c8_delay_after_each_fetch c8fetch ["A", "E"]).2 (by decide)⟩

/-- C9 — calling the collector twice through the cache with the same
(tickers, key) issues zero events (in particular zero network calls) on the
second invocation and returns a result identical to the first one's. -/
theorem c9_cache_idempotent (fetch : String → Option ApiResponse) (c : Cache)
    (tickers : List String) (key : String) :
    (cachedFetch fetch (cachedFetch fetch c tickers key).2.2 tickers key).2.1 = [] ∧
    (cachedFetch fetch (cachedFetch fetch c tickers key).2.2 tickers key).1 =
      (cachedFetch fetch c tickers key).1 := by
  cases hl : cacheLookup c (tickers, key) with
  | some r => simp [cachedFetch, hl]
  | none => simp [cachedFetch, hl, cacheLookup_cons_self]

/-- C10 — if some ticker's fetch fails mid-batch (on a cache miss for the
key), the collector returns the failure indicator and what the cache then
holds under that (tickers, key) is the failure indicator `None` — no
PriceTable is stored under the key. -/
theorem c10_failure_not_cached (fetch : String → Option ApiResponse) (c : Cache)
    (tickers : List String) (key : String)
    (hmiss : cacheLookup c (tickers, key) = none)
    (herr : ∃ t ∈ tickers, fetch t = none) :
    (cachedFetch fetch c tickers key).1 = none ∧
    cacheLookup (cachedFetch fetch c tickers key).2.2 (tickers, key) = some none ∧
    ∀ table : PriceTable,
      cacheLookup (cachedFetch fetch c tickers key).2.2 (tickers, key) ≠ some (some table) := by
  have hres : (fetchAllData fetch tickers).1 = none := fetchGo_none_of_mem fetch tickers [] herr
  refine ⟨?_, ?_, ?_⟩
  · simp [cachedFetch, hmiss, hres]
  · simp [cachedFetch, hmiss, hres, cacheLookup_cons_self]
  · intro table
    simp [cachedFetch, hmiss, hres, cacheLookup_cons_self]

/-- Witness for C10: an empty cache and a fetch failing on the only ticker:
the result is `None` and the cache stores `None` (no table) under the key. -/
theorem c10_witness :
    (cacheLookup [] (["SPY"], "key0") = none ∧
      ∃ t ∈ (["SPY"] : List String), (fun (_ : String) => (none : Option ApiResponse)) t = none) ∧
    ((cachedFetch (fun _ => none) [] ["SPY"] "key0").1 = none ∧
      cacheLookup (cachedFetch (fun _ => none) [] ["SPY"] "key0").2.2 (["SPY"], "key0") =
        some none ∧
      ∀ table : PriceTable,
        cacheLookup (cachedFetch (fun _ => none) [] ["SPY"] "key0").2.2 (["SPY"], "key0") ≠
          some (some table)) :=
  ⟨⟨rfl, ⟨"SPY", by decide, rfl⟩⟩,
    c10_failure_not_cached (fun _ => none) [] ["SPY"] "key0" rfl ⟨"SPY", by decide, rfl⟩⟩

-- ### Lemmas on the Pair Ranker

lemma insertDesc_perm (e : RankedPair) (l : List RankedPair) :
    (insertDesc e l).Perm (e :: l) := by
  induction l with
  | nil => exact List.Perm.refl _
  | cons f fs ih =>
    by_cases h : pairVal f ≤ pairVal e
    · simp [insertDesc, h]
    · simp only [insertDesc, if_neg h]
      exact (ih.cons f).trans (List.Perm.swap e f fs)

lemma sortDescPairs_perm (l : List RankedPair) : (sortDescPairs l).Perm l := by
  induction l with
  | nil => exact List.Perm.refl _
  | cons e es ih => exact (insertDesc_perm e (sortDescPairs es)).trans (ih.cons e)

lemma mem_filtered_iff (labels : List String) (vals : List (List ℚ)) (e : RankedPair) :
    e ∈ (sortDescPairs (unstackPairs labels vals)).filter (fun x => pairVal x != 1) ↔
      e ∈ unstackPairs labels vals ∧ pairVal e ≠ 1 := by
  rw [List.mem_filter, (sortDescPairs_perm _).mem_iff]
  simp

lemma mem_unstack (labels : List String) (vals : List (List ℚ)) (e : RankedPair) :
    e ∈ unstackPairs labels vals ↔
      ∃ c, c < labels.length ∧ ∃ r, r < labels.length ∧
        e = (labels.getD c "", labels.getD r "", valAt vals r c) := by
  simp only [unstackPairs, List.mem_flatMap, List.mem_map, List.mem_range]
  constructor
  · rintro ⟨c, hc, r, hr, rfl⟩
    exact ⟨c, hc, r, hr, rfl⟩
  · rintro ⟨c, hc, r, hr, rfl⟩
    exact ⟨c, hc, r, hr, rfl⟩

lemma dropDupVals_subset :
    ∀ (l : List RankedPair) (seen : List ℚ) (e : RankedPair),
      e ∈ dropDupVals l seen → e ∈ l := by
  intro l
  induction l with
  | nil => intro seen e h; simp [dropDupVals] at h
  | cons f fs ih =>
    intro seen e h
    by_cases hv : pairVal f ∈ seen
    · simp only [dropDupVals, if_pos hv] at h
      exact List.mem_cons_of_mem f (ih _ e h)
    · simp only [dropDupVals, if_neg hv] at h
      rcases List.mem_cons.mp h with rfl | h2
      · exact List.mem_cons_self _ _
      · exact List.mem_cons_of_mem f (ih _ e h2)

lemma dropDupVals_countP (v : ℚ) :
    ∀ (l : List RankedPair) (seen : List ℚ),
      (dropDupVals l seen).countP (fun e => pairVal e == v) =
        if v ∈ seen then 0 else if v ∈ l.map pairVal then 1 else 0 := by
  intro l
  induction l with
  | nil => intro seen; simp [dropDupVals]
  | cons f fs ih =>
    intro seen
    by_cases hv : pairVal f ∈ seen
    · rw [show dropDupVals (f :: fs) seen = dropDupVals fs seen by
        simp [dropDupVals, hv]]
      rw [ih]
      by_cases hs : v ∈ seen
      · simp [hs]
      · have hvf : ¬ v = pairVal f := fun h => hs (h ▸ hv)
        have hmem : (v ∈ List.map pairVal (f :: fs)) ↔ v ∈ List.map pairVal fs := by
          simp [List.map_cons, List.mem_cons, hvf]
        rw [if_neg hs, if_neg hs]
        exact if_congr hmem.symm rfl rfl
    · rw [show dropDupVals (f :: fs) seen = f :: dropDupVals fs (pairVal f :: seen) by
        simp [dropDupVals, hv]]
      rw [List.countP_cons, ih]
      by_cases hfv : pairVal f = v
      · subst hfv
        have hmem : pairVal f ∈ List.map pairVal (f :: fs) := by
          rw [List.map_cons]
          exact List.mem_cons_self _ _
        rw [if_pos (List.mem_cons_self _ _), if_neg hv, if_pos hmem]
        simp
      · have hvf : ¬ v = pairVal f := fun h => hfv h.symm
        have hbeq : ¬ ((pairVal f == v) = true) := by simp [hfv]
        have hmem1 : (v ∈ pairVal f :: seen) ↔ v ∈ seen := by
          simp [List.mem_cons, hvf]
        have hmem2 : (v ∈ List.map pairVal (f :: fs)) ↔ v ∈ List.map pairVal fs := by
          simp [List.map_cons, List.mem_cons, hvf]
        rw [if_neg hbeq, Nat.add_zero]
        by_cases hs : v ∈ seen
        · rw [if_pos (hmem1.mpr hs), if_pos hs]
        · rw [if_neg (fun h => hs (hmem1.mp h)), if_neg hs]
          exact if_congr hmem2.symm rfl rfl

lemma dropDupVals_nodup :
    ∀ (l : List RankedPair) (seen : List ℚ),
      ((dropDupVals l seen).map pairVal).Nodup ∧
        ∀ v ∈ (dropDupVals l seen).map pairVal, v ∉ seen := by
  intro l
  induction l with
  | nil => intro seen; simp [dropDupVals]
  | cons f fs ih =>
    intro seen
    by_cases hv : pairVal f ∈ seen
    · simpa [dropDupVals, hv] using ih seen
    · have h2 := ih (pairVal f :: seen)
      constructor
      · simp only [dropDupVals, if_neg hv, List.map_cons, List.nodup_cons]
        exact ⟨fun hmem => (h2.2 _ hmem) (List.mem_cons_self _ _), h2.1⟩
      · intro v hvmem
        simp only [dropDupVals, if_neg hv, List.map_cons, List.mem_cons] at hvmem
        rcases hvmem with rfl | h3
        · exact hv
        · exact fun hseen => (h2.2 _ h3) (List.mem_cons_of_mem _ hseen)

lemma card_sdiff_insert (A S : Finset ℚ) (a : ℚ) (ha : a ∉ S) :
    (A \ insert a S).card + 1 = (insert a A \ S).card := by
  have h1 : A \ insert a S = (A \ S).erase a := by
    ext x
    simp only [Finset.mem_sdiff, Finset.mem_insert, Finset.mem_erase]
    tauto
  have h2 : insert a A \ S = insert a (A \ S) := by
    ext x
    simp only [Finset.mem_sdiff, Finset.mem_insert]
    constructor
    · rintro ⟨hx | hx, hxs⟩
      · exact Or.inl hx
      · exact Or.inr ⟨hx, hxs⟩
    · rintro (rfl | ⟨hx, hxs⟩)
      · exact ⟨Or.inl rfl, ha⟩
      · exact ⟨Or.inr hx, hxs⟩
  rw [h1, h2]
  by_cases hm : a ∈ A \ S
  · rw [Finset.card_erase_of_mem hm, Finset.insert_eq_self.mpr hm]
    exact Nat.sub_add_cancel (Finset.card_pos.mpr ⟨a, hm⟩)
  · rw [Finset.erase_eq_of_not_mem hm, Finset.card_insert_of_not_mem hm]

lemma dropDupVals_length :
    ∀ (l : List RankedPair) (seen : List ℚ),
      (dropDupVals l seen).length = ((l.map pairVal).toFinset \ seen.toFinset).card := by
  intro l
  induction l with
  | nil => intro seen; simp [dropDupVals]
  | cons f fs ih =>
    intro seen
    by_cases hv : pairVal f ∈ seen
    · rw [show dropDupVals (f :: fs) seen = dropDupVals fs seen by simp [dropDupVals, hv]]
      rw [ih, List.map_cons, List.toFinset_cons,
        Finset.insert_sdiff_of_mem _ (List.mem_toFinset.mpr hv)]
    · rw [show dropDupVals (f :: fs) seen = f :: dropDupVals fs (pairVal f :: seen) by
        simp [dropDupVals, hv]]
      rw [List.length_cons, ih, List.map_cons, List.toFinset_cons, List.toFinset_cons]
      exact card_sdiff_insert _ _ _ (fun hm => hv (List.mem_toFinset.mp hm))

lemma getD_inj (labels : List String) (hnd : labels.Nodup) {i j : Nat}
    (hi : i < labels.length) (hj : j < labels.length)
    (h : labels.getD i "" = labels.getD j "") : i = j := by
  rw [List.getD_eq_getElem labels _ hi, List.getD_eq_getElem labels _ hj] at h
  exact hnd.getElem_inj_iff.mp h

-- ### Claims on the Pair Ranker

/-- Counterexample to C3 as stated: on the 2-ticker correlation matrix with
both tickers perfectly correlated (a symmetric matrix with every entry 1.0),
the `!= 1.0` filter drops the distinct pair A–B together with the diagonal,
so the ranked sequence is empty and the unordered pair {A, B} appears zero
times, not exactly once. -/
theorem c3_counterexample :
    corrPairs ["A", "B"] [[1, 1], [1, 1]] = [] ∧
    ¬ ((corrPairs ["A", "B"] [[1, 1], [1, 1]]).countP (pairMatch "A" "B") = 1) := by
  decide

/-- C3 (amended) — for a correlation matrix with distinct ticker labels,
symmetric values, unit diagonal, in which no off-diagonal entry equals 1.0
and distinct unordered pairs carry distinct values, the ranked pair sequence
contains no self pair and each unordered pair of distinct tickers appears
exactly once. -/
theorem c3_amended_pairs_exactly_once (labels : List String) (vals : List (List ℚ))
    (hnd : labels.Nodup)
    (hsym : ∀ i ∈ List.range labels.length, ∀ j ∈ List.range labels.length,
      valAt vals i j = valAt vals j i)
    (hdiag : ∀ i ∈ List.range labels.length, valAt vals i i = 1)
    (hoff : ∀ i ∈ List.range labels.length, ∀ j ∈ List.range labels.length,
      i ≠ j → valAt vals i j ≠ 1)
    (hdist : ∀ i ∈ List.range labels.length, ∀ j ∈ List.range labels.length,
      ∀ k ∈ List.range labels.length, ∀ m ∈ List.range labels.length,
        i ≠ j → k ≠ m → valAt vals i j = valAt vals k m →
          (k = i ∧ m = j) ∨ (k = j ∧ m = i)) :
    (∀ e ∈ corrPairs labels vals, e.1 ≠ e.2.1) ∧
    (∀ i ∈ List.range labels.length, ∀ j ∈ List.range labels.length, i ≠ j →
      (corrPairs labels vals).countP
        (pairMatch (labels.getD i "") (labels.getD j "")) = 1) := by
  constructor
  · intro e he hEq
    have hF := dropDupVals_subset _ [] e he
    obtain ⟨hu, hne1⟩ := (mem_filtered_iff labels vals e).mp hF
    obtain ⟨c, hc, r, hr, rfl⟩ := (mem_unstack labels vals e).mp hu
    have hcr : c = r := getD_inj labels hnd hc hr hEq
    subst hcr
    exact hne1 (hdiag c (List.mem_range.mpr hc))
  · intro i hi0 j hj0 hij
    have hi := List.mem_range.mp hi0
    have hj := List.mem_range.mp hj0
    have hagree : ∀ e ∈ corrPairs labels vals,
        (pairMatch (labels.getD i "") (labels.getD j "") e = true ↔
          (pairVal e == valAt vals i j) = true) := by
      intro e he
      have hF := dropDupVals_subset _ [] e he
      obtain ⟨hu, hne1⟩ := (mem_filtered_iff labels vals e).mp hF
      obtain ⟨c, hc, r, hr, rfl⟩ := (mem_unstack labels vals e).mp hu
      have hrc : r ≠ c := by
        intro hrc0
        subst hrc0
        exact hne1 (hdiag r (List.mem_range.mpr hr))
      constructor
      · intro hpm
        simp only [pairMatch, Bool.or_eq_true, Bool.and_eq_true, beq_iff_eq] at hpm
        rw [beq_iff_eq]
        rcases hpm with ⟨h1, h2⟩ | ⟨h1, h2⟩
        · have hci : c = i := getD_inj labels hnd hc hi h1
          have hrj : r = j := getD_inj labels hnd hr hj h2
          rw [hci, hrj]
          exact hsym j hj0 i hi0
        · have hcj : c = j := getD_inj labels hnd hc hj h1
          have hri : r = i := getD_inj labels hnd hr hi h2
          rw [hcj, hri]
          rfl
      · intro hbeq
        rw [beq_iff_eq] at hbeq
        rcases hdist i hi0 j hj0 r (List.mem_range.mpr hr) c (List.mem_range.mpr hc)
            hij hrc hbeq.symm with ⟨hri, hcj⟩ | ⟨hrj, hci⟩
        · subst hri
          subst hcj
          simp [pairMatch]
        · subst hrj
          subst hci
          simp [pairMatch]
    rw [List.countP_congr hagree, corrPairs, dropDupVals_countP]
    have hvmem : valAt vals i j ∈
        ((sortDescPairs (unstackPairs labels vals)).filter
          (fun e => pairVal e != 1)).map pairVal := by
      refine List.mem_map.mpr
        ⟨(labels.getD j "", labels.getD i "", valAt vals i j), ?_, rfl⟩
      rw [mem_filtered_iff]
      exact ⟨(mem_unstack labels vals _).mpr ⟨j, hj, i, hi, rfl⟩, hoff i hi0 j hj0 hij⟩
    simp [hvmem]

/-- Witness for the amended C3: the concrete 3 × 3 matrix with off-diagonal
values 2, 3, 4 — no self pair appears, and every one of the three unordered
pairs appears exactly once. -/
theorem c3_witness :
    (c3labels.Nodup ∧
      (∀ i ∈ List.range c3labels.length, ∀ j ∈ List.range c3labels.length,
        valAt c3vals i j = valAt c3vals j i) ∧
      (∀ i ∈ List.range c3labels.length, valAt c3vals i i = 1) ∧
      (∀ i ∈ List.range c3labels.length, ∀ j ∈ List.range c3labels.length,
        i ≠ j → valAt c3vals i j ≠ 1) ∧
      (∀ i ∈ List.range c3labels.length, ∀ j ∈ List.range c3labels.length,
        ∀ k ∈ List.range c3labels.length, ∀ m ∈ List.range c3labels.length,
          i ≠ j → k ≠ m → valAt c3vals i j = valAt c3vals k m →
            (k = i ∧ m = j) ∨ (k = j ∧ m = i))) ∧
    ((∀ e ∈ corrPairs c3labels c3vals, e.1 ≠ e.2.1) ∧
      (∀ i ∈ List.range c3labels.length, ∀ j ∈ List.range c3labels.length, i ≠ j →
        (corrPairs c3labels c3vals).countP
          (pairMatch (c3labels.getD i "") (c3labels.getD j "")) = 1)) :=
  ⟨⟨by decide, by decide, by decide, by decide, by decide⟩,
    c3_amended_pairs_exactly_once c3labels c3vals (by decide) (by decide) (by decide)
      (by decide) (by decide)⟩

/-- C7 — the "most correlated" list is the first 5 entries and the "least
correlated" list is the last 5 entries of the same descending de-duplicated
sequence; for a 10-ticker matrix with at least 12 distinct off-diagonal
values, each list has exactly 5 entries and the two lists share no entry. -/
theorem c7_ranked_lists (labels : List String) (vals : List (List ℚ))
    (_hlen : labels.length = 10)
    (hdis : 12 ≤ (offDiagVals labels vals).toFinset.card) :
    mostCorrelated labels vals = (corrPairs labels vals).take 5 ∧
    leastCorrelated labels vals =
      (corrPairs labels vals).drop ((corrPairs labels vals).length - 5) ∧
    (mostCorrelated labels vals).length = 5 ∧
    (leastCorrelated labels vals).length = 5 ∧
    ∀ e ∈ mostCorrelated labels vals, e ∉ leastCorrelated labels vals := by
  have hlen0 : (corrPairs labels vals).length =
      (((sortDescPairs (unstackPairs labels vals)).filter
        (fun e => pairVal e != 1)).map pairVal).toFinset.card := by
    have h := dropDupVals_length ((sortDescPairs (unstackPairs labels vals)).filter
      (fun e => pairVal e != 1)) []
    simpa using h
  have hsub : ((offDiagVals labels vals).filter (fun x => x != 1)).toFinset ⊆
      (((sortDescPairs (unstackPairs labels vals)).filter
        (fun e => pairVal e != 1)).map pairVal).toFinset := by
    intro v hvmem
    rw [List.mem_toFinset, List.mem_filter] at hvmem
    obtain ⟨hvOff, hvne⟩ := hvmem
    simp only [offDiagVals, List.mem_flatMap, List.mem_map, List.mem_filter,
      List.mem_range] at hvOff
    obtain ⟨c, hc, r, ⟨hr, _⟩, rfl⟩ := hvOff
    rw [List.mem_toFinset]
    refine List.mem_map.mpr ⟨(labels.getD c "", labels.getD r "", valAt vals r c), ?_, rfl⟩
    rw [mem_filtered_iff]
    refine ⟨(mem_unstack labels vals _).mpr ⟨c, hc, r, hr, rfl⟩, ?_⟩
    simpa using hvne
  have hcard1 : 11 ≤ ((offDiagVals labels vals).filter (fun x => x != 1)).toFinset.card := by
    rw [List.toFinset_filter]
    have herase : (offDiagVals labels vals).toFinset.filter (fun x => (x != 1)) =
        (offDiagVals labels vals).toFinset.erase 1 := by
      ext x
      simp only [Finset.mem_filter, Finset.mem_erase, bne_iff_ne]
      exact and_comm
    rw [herase]
    have h2 : (offDiagVals labels vals).toFinset.card - 1 ≤
        ((offDiagVals labels vals).toFinset.erase 1).card :=
      Finset.pred_card_le_card_erase
    omega
  have hgeq : 11 ≤ (corrPairs labels vals).length := by
    rw [hlen0]
    exact le_trans hcard1 (Finset.card_le_card hsub)
  refine ⟨rfl, rfl, ?_, ?_, ?_⟩
  · rw [mostCorrelated, List.length_take]
    exact Nat.min_eq_left (by omega)
  · rw [leastCorrelated, List.length_drop]
    omega
  · have hnodup : (corrPairs labels vals).Nodup :=
      List.Nodup.of_map pairVal (dropDupVals_nodup _ []).1
    intro e he hle
    have he2 : e ∈ (corrPairs labels vals).take 5 := he
    have hle2 : e ∈ (corrPairs labels vals).drop ((corrPairs labels vals).length - 5) := hle
    exact List.disjoint_take_drop hnodup (by omega) he2 hle2

/-- Witness for C7: a concrete 10-ticker matrix with 45 distinct off-diagonal
values — both ranked lists have 5 entries and are disjoint. -/
theorem c7_witness :
    (c7labels.length = 10 ∧ 12 ≤ (offDiagVals c7labels c7vals).toFinset.card) ∧
    (mostCorrelated c7labels c7vals = (corrPairs c7labels c7vals).take 5 ∧
      leastCorrelated c7labels c7vals =
        (corrPairs c7labels c7vals).drop ((corrPairs c7labels c7vals).length - 5) ∧
      (mostCorrelated c7labels c7vals).length = 5 ∧
      (leastCorrelated c7labels c7vals).length = 5 ∧
      ∀ e ∈ mostCorrelated c7labels c7vals, e ∉ leastCorrelated c7labels c7vals) :=
  ⟨⟨by decide, by decide⟩, c7_ranked_lists c7labels c7vals (by decide) (by decide)⟩
